import Mathlib

/-!
Verification of the git-repository-concatenator tool (src/main.rs) against its
natural-language specification.

The Rust program is shallowly embedded as follows:

* The filesystem is a value of type `List FsNode` (the listing of the traversal
  root).  A `file` node carries its name, its size as reported by `metadata()`
  (`none` models a metadata read failure) and its content as returned by
  `fs::read_to_string` (`none` models a read / non-UTF8 decode failure).
  A `dir` node carries its name, whether `fs::read_dir` succeeds on it
  (`listable`), and its listing.
* `FileProcessor::get_file_structure` becomes `get_file_structure`,
  `FileProcessor::should_ignore_file` becomes `should_ignore_file`,
  `FileProcessor::get_language_from_ext` becomes `get_language_from_ext`,
  `FileProcessor::process_files` becomes `process_files`,
  `FileProcessor::generate_markdown` becomes `generate_markdown`, and the
  body of `main` (name derivation and output-path construction) becomes
  `repo_name` / `runMain`.
* The external `git clone` subprocess is modelled by a `CloneOutcome` record:
  whether `Command::output()` itself succeeded (`spawned`), the process exit
  code, the captured stderr, and the listing of the temporary directory after
  the clone attempt.
* Fallible Rust code (`Result<_, Box<dyn Error>>`) becomes `Except`.
  `eprintln!` diagnostics are modelled by an explicitly threaded list of
  diagnostic strings.
-/

namespace GitConcat

/-- Model of a filesystem entry.  `file name size content`: `size = none`
models `entry.metadata()` failing, `content = none` models
`fs::read_to_string` failing (I/O error or non-UTF8 bytes).
`dir name listable children`: `listable = false` models `fs::read_dir`
failing on that directory. -/
inductive FsNode where
  | file (name : String) (size : Option Nat) (content : Option String) : FsNode
  | dir (name : String) (listable : Bool) (children : List FsNode) : FsNode

/-- Model of the Rust struct `FileEntry` (main.rs lines 14-24): tagged
"file"/"directory" records with name, relative path, optional size and
optional child list. -/
inductive FileEntry where
  | mk (entry_type : String) (name : String) (path : String)
       (size : Option Nat) (children : Option (List FileEntry)) : FileEntry

def FileEntry.entry_type : FileEntry → String
  | .mk t _ _ _ _ => t

def FileEntry.name : FileEntry → String
  | .mk _ n _ _ _ => n

def FileEntry.path : FileEntry → String
  | .mk _ _ p _ _ => p

def FileEntry.size : FileEntry → Option Nat
  | .mk _ _ _ s _ => s

def FileEntry.children : FileEntry → Option (List FileEntry)
  | .mk _ _ _ _ c => c

/-- Directories ignored by `FileProcessor::new` (main.rs lines 37-42). -/
def ignore_dirs : List String := [".git", "node_modules", "target", "dist", "build"]

/-- Files ignored by `FileProcessor::new` (main.rs lines 45-47). -/
def ignore_files : List String := [".DS_Store", "yarn.lock"]

/-- Extensions ignored by `FileProcessor::new` (main.rs lines 50-67). -/
def ignore_extensions : List String :=
  ["exe", "dll", "so", "dylib",
   "png", "jpg", "jpeg", "gif", "ico", "bmp", "tiff", "webp",
   "zip", "rar", "7z", "tar", "gz", "bz2",
   "pdf", "doc", "docx", "xls", "xlsx", "ppt", "pptx",
   "class", "pyc", "pyo", "pyd",
   "mp3", "mp4", "wav", "avi", "mov", "flv", "mkv",
   "db", "sqlite", "sqlite3"]

/-- Suffix test on strings (Rust `str::ends_with`), via the character
lists so that concrete instances evaluate. -/
def strEndsWith (s suffix : String) : Bool :=
  suffix.toList.isSuffixOf s.toList

/-- Prefix test on strings (Rust `str::starts_with`), via the character
lists so that concrete instances evaluate. -/
def strStartsWith (s p : String) : Bool :=
  p.toList.isPrefixOf s.toList

/-- Split of a character list at every occurrence of a separator
(Rust `str::split` on a `char` pattern). -/
def splitCharList (sep : Char) : List Char → List (List Char)
  | [] => [[]]
  | c :: cs =>
    if c = sep then [] :: splitCharList sep cs
    else
      match splitCharList sep cs with
      | [] => [[c]]
      | h :: t => (c :: h) :: t

/-- Split of a string at every occurrence of a separator character. -/
def splitChar (sep : Char) (s : String) : List String :=
  (splitCharList sep s.toList).map String.mk

/-- Model of Rust `Path::file_name` for the slash-separated paths this
program builds: the last `/`-separated segment. -/
def fileNameOf (path : String) : String :=
  (splitChar '/' path).getLastD path

/-- Model of Rust `Path::new(p).extension()`: split the file name at its last
dot; no dot, or a lone leading dot (hidden files such as `.gitignore`),
yields `none`; otherwise the part after the last dot. -/
def rustExtension (path : String) : Option String :=
  let cs := (fileNameOf path).toList
  if cs.contains '.' then
    let after := (cs.reverse.takeWhile (fun c => c ≠ '.')).reverse
    let before := cs.take (cs.length - after.length - 1)
    if before.isEmpty then none else some (String.mk after)
  else none

/-- Model of `FileProcessor::should_ignore_file` (main.rs lines 120-132):
ignore a file when its full name is in `ignore_files`, or when it has an
extension and that extension is in `ignore_extensions`. -/
def should_ignore_file (filename : String) : Bool :=
  if filename ∈ ignore_files then true
  else
    match rustExtension filename with
    | some ext => ext ∈ ignore_extensions
    | none => false

/-- Model of `FileProcessor::get_language_from_ext` (main.rs lines 135-178):
lowercased extension looked up in a fixed table, empty string when absent
or unrecognized. -/
def get_language_from_ext (filepath : String) : String :=
  let extension := String.mk (((rustExtension filepath).getD "").toList.map Char.toLower)
  match extension with
  | "js" | "jsx" => "javascript"
  | "ts" | "tsx" => "typescript"
  | "py" => "python"
  | "rb" => "ruby"
  | "java" => "java"
  | "cs" => "csharp"
  | "cpp" | "hpp" => "cpp"
  | "c" | "h" => "c"
  | "rs" => "rust"
  | "go" => "go"
  | "php" => "php"
  | "html" => "html"
  | "css" => "css"
  | "scss" => "scss"
  | "md" => "markdown"
  | "json" => "json"
  | "xml" => "xml"
  | "yaml" | "yml" => "yaml"
  | "sh" | "bash" => "bash"
  | "sql" => "sql"
  | "kt" => "kotlin"
  | "swift" => "swift"
  | "r" => "r"
  | "lua" => "lua"
  | "pl" | "perl" => "perl"
  | "dart" => "dart"
  | "ex" | "exs" => "elixir"
  | "erl" => "erlang"
  | "fs" | "fsx" => "fsharp"
  | "hs" => "haskell"
  | "scala" => "scala"
  | "toml" => "toml"
  | _ => ""

/-- Model of `base_path.join(&name)` for the relative paths built during the
walk (the initial base path is `Path::new("")`, and `Path::new("").join(n)`
is just `n`). -/
def joinPath (base name : String) : String :=
  if base = "" then name else base ++ "/" ++ name

/-- Model of `FileProcessor::get_file_structure` (main.rs lines 77-117) on the
listing of the current directory.  Entries are processed in listing order;
a directory whose name is ignored is skipped without recursion; an
unlistable directory or a failed `metadata()` call on a non-ignored file
aborts with an error (the Rust `?`); a recursed directory is emitted only
when its filtered child list is non-empty. -/
def get_file_structure (nodes : List FsNode) (base : String) :
    Except Unit (List FileEntry) :=
  match nodes with
  | [] => .ok []
  | .dir name listable children :: rest =>
    if name ∈ ignore_dirs then get_file_structure rest base
    else if listable then
      match get_file_structure children (joinPath base name) with
      | .error e => .error e
      | .ok cs =>
        match get_file_structure rest base with
        | .error e => .error e
        | .ok tail =>
          .ok (if cs.isEmpty then tail
               else .mk "directory" name (joinPath base name) none (some cs) :: tail)
    else .error ()
  | .file name size _content :: rest =>
    if should_ignore_file name then get_file_structure rest base
    else
      match size with
      | none => .error ()
      | some n =>
        match get_file_structure rest base with
        | .error e => .error e
        | .ok tail => .ok (.mk "file" name (joinPath base name) (some n) none :: tail)
termination_by sizeOf nodes

/-- Whether some file in the given listing survives ignore-filtering, where
ignored directories are not descended into (used to state when a subtree
yields a node). -/
def anySurvivingFile (nodes : List FsNode) : Bool :=
  match nodes with
  | [] => false
  | .dir name _ children :: rest =>
    if name ∈ ignore_dirs then anySurvivingFile rest
    else anySurvivingFile children || anySurvivingFile rest
  | .file name _ _ :: rest =>
    if should_ignore_file name then anySurvivingFile rest
    else true
termination_by sizeOf nodes

/-- Whether the traversal of the given listing reaches a filesystem failure:
an unlistable non-ignored directory, or a metadata failure on a
non-ignored file (ignored directories are never entered, ignored files
never have their metadata read). -/
def hasReachableFsError (nodes : List FsNode) : Bool :=
  match nodes with
  | [] => false
  | .dir name listable children :: rest =>
    if name ∈ ignore_dirs then hasReachableFsError rest
    else (!listable || hasReachableFsError children) || hasReachableFsError rest
  | .file name size _ :: rest =>
    if should_ignore_file name then hasReachableFsError rest
    else size.isNone || hasReachableFsError rest
termination_by sizeOf nodes

/-- Placeholder substituted for an unreadable or non-UTF8 file body
(main.rs line 244). -/
def placeholderText : String := "[Binary or non-UTF8 file content skipped]"

/-- Section emitted per file by `process_files` (main.rs lines 249-253): a
`##` heading with the relative path, a fence tagged with the detected
language, the file content (or the placeholder when the read fails), and a
closing fence.  `read` maps a relative path to the result of
`fs::read_to_string` on it. -/
def renderSection (read : String → Option String) (e : FileEntry) : String :=
  "## " ++ e.path ++ "\n\n```" ++ get_language_from_ext e.path ++ "\n" ++
    ((read e.path).getD placeholderText) ++ "\n```\n\n"

/-- Warning printed to stderr when a file cannot be read as UTF-8
(main.rs line 243), `none` when the read succeeds.  The Rust message ends
with the io error's own description, which the model does not carry, so
that suffix is elided here. -/
def warnFor (read : String → Option String) (e : FileEntry) : Option String :=
  match read e.path with
  | some _ => none
  | none => some ("Warning: Unable to read " ++ e.path ++ " as UTF-8 text")

/-- Model of `FileProcessor::process_files` (main.rs lines 228-257):
depth-first over the entries; directory entries only recurse into their
children; file entries append one section to the accumulated markdown,
emitting a warning diagnostic when the read fails.  The Rust function
returns `Result` but its only error source is propagation from the
recursive calls, so the model keeps the `Except` shape. -/
def process_files (read : String → Option String) (entries : List FileEntry)
    (markdown : String) (diag : List String) : Except Unit (String × List String) :=
  match entries with
  | [] => .ok (markdown, diag)
  | .mk t n p sz ch :: rest =>
    if t = "directory" then
      match ch with
      | some cs =>
        match process_files read cs markdown diag with
        | .error e => .error e
        | .ok (md, dg) => process_files read rest md dg
      | none => process_files read rest markdown diag
    else
      process_files read rest
        (markdown ++ renderSection read (.mk t n p sz ch))
        (diag ++ (warnFor read (.mk t n p sz ch)).toList)
termination_by sizeOf entries

/-- Files of an entry list in depth-first order: the file entries that
`process_files` renders, in rendering order. -/
def filesOf (entries : List FileEntry) : List FileEntry :=
  match entries with
  | [] => []
  | .mk t n p sz ch :: rest =>
    if t = "directory" then
      (match ch with
       | some cs => filesOf cs
       | none => []) ++ filesOf rest
    else .mk t n p sz ch :: filesOf rest
termination_by sizeOf entries

/-- Concatenation of the rendered sections of a list of file entries, in
order. -/
def renderAll (read : String → Option String) (fs : List FileEntry) : String :=
  match fs with
  | [] => ""
  | e :: rest => renderSection read e ++ renderAll read rest

/-- Serialization of the structure tree, modelling
`serde_json::to_string_pretty` (an external library call) up to
whitespace: objects with field order type, name, path, size-if-present,
children-if-present.  No claim depends on the exact text. -/
def serializeEntries (entries : List FileEntry) : String :=
  match entries with
  | [] => ""
  | .mk t n p sz ch :: rest =>
    "\x7b\"type\":\"" ++ t ++ "\",\"name\":\"" ++ n ++ "\",\"path\":\"" ++ p ++ "\"" ++
      (match sz with
       | some k => ",\"size\":" ++ toString k
       | none => "") ++
      (match ch with
       | some cs => ",\"children\":[" ++ serializeEntries cs ++ "]"
       | none => "") ++
      "\x7d" ++ (if rest.isEmpty then "" else ",") ++ serializeEntries rest
termination_by sizeOf entries

/-- Resolution of a relative path (as a list of segments) to the
`fs::read_to_string` result in the modelled filesystem: walk matching
directories, return the content of the matching file (`none` when the
path does not resolve to a readable UTF-8 file). -/
def readFrom (nodes : List FsNode) (segs : List String) : Option String :=
  match nodes, segs with
  | _, [] => none
  | [], _ => none
  | .file n _ c :: rest, [seg] => if n = seg then c else readFrom rest [seg]
  | .dir _ _ _ :: rest, [seg] => readFrom rest [seg]
  | .file _ _ _ :: rest, segs => readFrom rest segs
  | .dir n _ cs :: rest, seg :: segrest =>
    if n = seg then readFrom cs segrest else readFrom rest (seg :: segrest)
termination_by sizeOf nodes

/-- Errors of the modelled pipeline: the `?` on `Command::output()`
(spawning the clone subprocess failed) and the `?`s surfacing filesystem
failures.  The Rust code carries all of these as `Box<dyn Error>`; the
constructors only record where the error arose. -/
inductive GmErr where
  | cloneSpawn : GmErr
  | fs : GmErr

/-- Outcome of running `git clone <source> <tempdir>` (main.rs lines
190-207): whether `Command::output()` itself succeeded, the exit code of
git, its captured stderr, and the listing of the temporary directory
after the attempt.  Note the Rust code never inspects the exit code. -/
structure CloneOutcome where
  spawned : Bool
  exitCode : Nat
  stderr : String
  resultFs : List FsNode

/-- Diagnostic printed after the clone attempt (main.rs lines 205-207):
git's stderr is echoed whenever it is non-empty, regardless of the exit
status. -/
def gitDiag (clone : CloneOutcome) : List String :=
  if clone.stderr ≠ "" then ["Git output: " ++ clone.stderr] else []

/-- Remote-reference test of main.rs line 184: a plain string-prefix check
for `http`, `git@`, or `ssh://`. -/
def isRemote (s : String) : Bool :=
  strStartsWith s "http" || strStartsWith s "git@" || strStartsWith s "ssh://"

/-- Shared tail of `generate_markdown` (main.rs lines 213-224): build the
structure from the root listing (`none` models `read_dir` failing on the
root itself), serialize it, then render every file.  Returns the full
markdown document and the accumulated diagnostics. -/
def buildAndRender (rootListing : Option (List FsNode)) (diag : List String) :
    Except GmErr (String × List String) :=
  match rootListing with
  | none => .error .fs
  | some l =>
    match get_file_structure l "" with
    | .error _ => .error .fs
    | .ok tree =>
      match process_files (fun p => readFrom l (splitChar '/' p)) tree
          ("# Repository Structure\n\n```json\n[" ++ serializeEntries tree ++
            "]\n```\n\n# File Contents\n\n") diag with
      | .error _ => .error .fs
      | .ok r => .ok r

/-- Remote branch of `generate_markdown` (main.rs lines 185-208): if the
clone subprocess could not be run at all, the `?` aborts; otherwise git's
stderr is echoed and the temporary directory is traversed — the exit
status of git is never examined. -/
def remoteRun (_source : String) (clone : CloneOutcome) :
    Except GmErr (String × List String) :=
  if clone.spawned then buildAndRender (some clone.resultFs) (gitDiag clone)
  else .error .cloneSpawn

/-- Model of `FileProcessor::generate_markdown` (main.rs lines 181-225):
sources matching the remote prefix test are cloned (the `clone` argument
is the outcome of `git clone source <tempdir>`); all other sources are
used as local directory paths (`localListing` is the listing of that
path, `none` when it cannot be read). -/
def generate_markdown (source : String) (clone : CloneOutcome)
    (localListing : Option (List FsNode)) : Except GmErr (String × List String) :=
  if isRemote source then remoteRun source clone
  else buildAndRender localListing []

/-- Model of the repository-name derivation in `main` (main.rs lines
272-291): trim trailing slashes, take the last `:`-segment for
`git@`-style sources or the last `/`-segment otherwise, strip one
trailing `.git`, and replace every character that is not an ASCII
letter, digit, `-` or `_` by `-`.  The subsequent empty-name fallback
check (main.rs lines 293-297) computes `"repository"` but its result is
never bound to anything, so it does not affect the name used at line
304; the model therefore ends here. -/
def repo_name (arg : String) : String :=
  let trimmed := if strEndsWith arg "/"
                 then String.mk ((arg.toList.reverse.dropWhile (fun c => c = '/')).reverse)
                 else arg
  let seg := if strStartsWith trimmed "git@"
             then (splitChar ':' trimmed).getLastD trimmed
             else (splitChar '/' trimmed).getLastD trimmed
  let stripped := if strEndsWith seg ".git"
                  then String.mk (seg.toList.take (seg.toList.length - 4))
                  else seg
  String.mk (stripped.toList.map
    (fun c => if !(c.isAlphanum || c = '-' || c = '_') then '-' else c))

/-- Model of `main` (main.rs lines 260-309) after argument parsing: run
`generate_markdown`; on success the document is written to
`./output/<repo_name>.md` (returned as path, contents and diagnostics);
on error the run exits non-zero and nothing is written. -/
def runMain (arg : String) (clone : CloneOutcome)
    (localListing : Option (List FsNode)) :
    Except GmErr (String × String × List String) :=
  match generate_markdown arg clone localListing with
  | .error e => .error e
  | .ok (md, diag) => .ok ("./output/" ++ repo_name arg ++ ".md", md, diag)

/-- Concrete clone outcome for witnesses: a clone that ran but failed with a
non-zero exit status, leaving the temporary directory empty. -/
def failedClone : CloneOutcome :=
  { spawned := true, exitCode := 128,
    stderr := "fatal: repository not found", resultFs := [] }

/-- Concrete clone outcome for witnesses: a successful clone materializing
one file. -/
def okClone : CloneOutcome :=
  { spawned := true, exitCode := 0, stderr := "",
    resultFs := [.file "README.md" (some 5) (some "hello")] }

/-- Concrete local listing for witnesses. -/
def sampleFs : List FsNode :=
  [.file "main.rs" (some 10) (some "fn main()"),
   .file "photo.png" (some 3) (some "PNG"),
   .file ".DS_Store" (some 1) (some "x"),
   .file "yarn.lock" (some 2) (some "y")]

theorem gfs_nil (base : String) : get_file_structure [] base = .ok [] := by
  rw [get_file_structure]

theorem gfs_dir_ignored (name : String) (lb : Bool) (ch rest : List FsNode) (base : String)
    (hig : name ∈ ignore_dirs) :
    get_file_structure (.dir name lb ch :: rest) base = get_file_structure rest base := by
  rw [get_file_structure.eq_def]
  simp [hig]

theorem gfs_dir (name : String) (ch rest : List FsNode) (base : String)
    (hnig : name ∉ ignore_dirs) :
    get_file_structure (.dir name true ch :: rest) base =
      match get_file_structure ch (joinPath base name) with
      | .error e => .error e
      | .ok cs =>
        match get_file_structure rest base with
        | .error e => .error e
        | .ok tail =>
          .ok (if cs.isEmpty then tail
               else .mk "directory" name (joinPath base name) none (some cs) :: tail) := by
  rw [get_file_structure.eq_def]
  simp [hnig]

theorem gfs_dir_unlistable (name : String) (ch rest : List FsNode) (base : String)
    (hnig : name ∉ ignore_dirs) :
    get_file_structure (.dir name false ch :: rest) base = .error () := by
  rw [get_file_structure.eq_def]
  simp [hnig]

theorem gfs_file_ignored (name : String) (sz : Option Nat) (c : Option String)
    (rest : List FsNode) (base : String) (hig : should_ignore_file name = true) :
    get_file_structure (.file name sz c :: rest) base = get_file_structure rest base := by
  rw [get_file_structure.eq_def]
  simp [hig]

theorem gfs_file_nometa (name : String) (c : Option String) (rest : List FsNode)
    (base : String) (hnig : should_ignore_file name = false) :
    get_file_structure (.file name none c :: rest) base = .error () := by
  rw [get_file_structure.eq_def]
  simp [hnig]

theorem gfs_file (name : String) (n : Nat) (c : Option String) (rest : List FsNode)
    (base : String) (hnig : should_ignore_file name = false) :
    get_file_structure (.file name (some n) c :: rest) base =
      match get_file_structure rest base with
      | .error e => .error e
      | .ok tail => .ok (.mk "file" name (joinPath base name) (some n) none :: tail) := by
  rw [get_file_structure.eq_def]
  simp [hnig]

theorem asf_nil : anySurvivingFile [] = false := by
  rw [anySurvivingFile]

theorem asf_dir_ignored (name : String) (lb : Bool) (ch rest : List FsNode)
    (hig : name ∈ ignore_dirs) :
    anySurvivingFile (.dir name lb ch :: rest) = anySurvivingFile rest := by
  rw [anySurvivingFile.eq_def]
  simp [hig]

theorem asf_dir (name : String) (lb : Bool) (ch rest : List FsNode)
    (hnig : name ∉ ignore_dirs) :
    anySurvivingFile (.dir name lb ch :: rest) =
      (anySurvivingFile ch || anySurvivingFile rest) := by
  rw [anySurvivingFile.eq_def]
  simp [hnig]

theorem asf_file_ignored (name : String) (sz : Option Nat) (c : Option String)
    (rest : List FsNode) (hig : should_ignore_file name = true) :
    anySurvivingFile (.file name sz c :: rest) = anySurvivingFile rest := by
  rw [anySurvivingFile.eq_def]
  simp [hig]

theorem asf_file (name : String) (sz : Option Nat) (c : Option String)
    (rest : List FsNode) (hnig : should_ignore_file name = false) :
    anySurvivingFile (.file name sz c :: rest) = true := by
  rw [anySurvivingFile.eq_def]
  simp [hnig]

theorem hre_nil : hasReachableFsError [] = false := by
  rw [hasReachableFsError]

theorem hre_dir_ignored (name : String) (lb : Bool) (ch rest : List FsNode)
    (hig : name ∈ ignore_dirs) :
    hasReachableFsError (.dir name lb ch :: rest) = hasReachableFsError rest := by
  rw [hasReachableFsError.eq_def]
  simp [hig]

theorem hre_dir (name : String) (lb : Bool) (ch rest : List FsNode)
    (hnig : name ∉ ignore_dirs) :
    hasReachableFsError (.dir name lb ch :: rest) =
      ((!lb || hasReachableFsError ch) || hasReachableFsError rest) := by
  rw [hasReachableFsError.eq_def]
  simp [hnig]

theorem hre_file_ignored (name : String) (sz : Option Nat) (c : Option String)
    (rest : List FsNode) (hig : should_ignore_file name = true) :
    hasReachableFsError (.file name sz c :: rest) = hasReachableFsError rest := by
  rw [hasReachableFsError.eq_def]
  simp [hig]

theorem hre_file (name : String) (sz : Option Nat) (c : Option String)
    (rest : List FsNode) (hnig : should_ignore_file name = false) :
    hasReachableFsError (.file name sz c :: rest) =
      (sz.isNone || hasReachableFsError rest) := by
  rw [hasReachableFsError.eq_def]
  simp [hnig]

theorem renderAll_append (read : String → Option String) (a b : List FileEntry) :
    renderAll read (a ++ b) = renderAll read a ++ renderAll read b := by
  induction a with
  | nil => simp [renderAll]
  | cons e rest ih => simp [renderAll, ih, String.append_assoc]

theorem filesOf_file (t n p : String) (sz : Option Nat) (ch : Option (List FileEntry))
    (rest : List FileEntry) (ht : ¬t = "directory") :
    filesOf (.mk t n p sz ch :: rest) = .mk t n p sz ch :: filesOf rest := by
  rw [filesOf.eq_def]
  simp [ht]

/-- Content of `process_files`: it always succeeds, appending to the
accumulated markdown exactly one rendered section per file entry in
depth-first order, and one warning per failed read. -/
theorem process_files_eq (read : String → Option String) (entries : List FileEntry)
    (markdown : String) (diag : List String) :
    process_files read entries markdown diag =
      .ok (markdown ++ renderAll read (filesOf entries),
           diag ++ (filesOf entries).filterMap (warnFor read)) := by
  induction entries, markdown, diag using process_files.induct read with
  | case1 md dg => simp [process_files, filesOf, renderAll]
  | case2 md dg n p sz rest cs e herr ih =>
    rw [ih] at herr
    exact absurd herr (by simp)
  | case3 md dg n p sz rest cs md2 dg2 hok ih1 ih2 =>
    rw [process_files, if_pos rfl, hok]
    rw [ih1] at hok
    injection hok with hok
    injection hok with h1 h2
    subst h1
    subst h2
    refine ih2.trans ?_
    rw [filesOf, if_pos rfl, renderAll_append, List.filterMap_append]
    simp [String.append_assoc, List.append_assoc]
  | case4 md dg n p sz rest ih =>
    rw [process_files, if_pos rfl, ih, filesOf, if_pos rfl]
    rfl
  | case5 md dg t n p sz ch rest ht ih =>
    rw [process_files.eq_def]
    simp only [ht, ite_false]
    rw [ih, filesOf_file t n p sz ch rest ht]
    cases hw : warnFor read (.mk t n p sz ch) <;>
      simp [hw, renderAll, String.append_assoc, List.append_assoc]

/-- When the walk succeeds, its result is empty exactly when no file of the
input listing survives ignore-filtering. -/
theorem gfs_ok_empty_iff (nodes : List FsNode) (base : String) (s : List FileEntry)
    (h : get_file_structure nodes base = .ok s) :
    s.isEmpty = !anySurvivingFile nodes := by
  induction nodes, base using get_file_structure.induct generalizing s with
  | case1 base =>
    rw [gfs_nil] at h
    injection h with h
    subst h
    simp [asf_nil]
  | case2 base name listable children rest hig ih =>
    rw [gfs_dir_ignored _ _ _ _ _ hig] at h
    rw [asf_dir_ignored _ _ _ _ hig]
    exact ih _ h
  | case3 base name children rest hnig e herr ihc =>
    rw [gfs_dir _ _ _ _ hnig, herr] at h
    exact absurd h (by simp)
  | case4 base name children rest hnig cs hcs e herr ihc ihr =>
    rw [gfs_dir _ _ _ _ hnig, hcs, herr] at h
    exact absurd h (by simp)
  | case5 base name children rest hnig cs hcs tail htail ihc ihr =>
    rw [gfs_dir _ _ _ _ hnig, hcs, htail] at h
    injection h with h
    subst h
    rw [asf_dir _ _ _ _ hnig]
    have h1 := ihc cs hcs
    have h2 := ihr tail htail
    cases hce : cs.isEmpty with
    | true =>
      rw [hce] at h1
      have hac : anySurvivingFile children = false := by
        cases hac : anySurvivingFile children
        · rfl
        · rw [hac] at h1
          exact absurd h1.symm (by simp)
      simp [hce, hac, h2]
    | false =>
      rw [hce] at h1
      have hac : anySurvivingFile children = true := by
        cases hac : anySurvivingFile children
        · rw [hac] at h1
          exact absurd h1.symm (by simp)
        · rfl
      simp [hce, hac]
  | case6 base name listable children rest hnig hnl =>
    have hl : listable = false := by
      cases listable
      · rfl
      · exact absurd rfl hnl
    subst hl
    rw [gfs_dir_unlistable _ _ _ _ hnig] at h
    exact absurd h (by simp)
  | case7 base name size _content rest hig ih =>
    rw [gfs_file_ignored _ _ _ _ _ hig] at h
    rw [asf_file_ignored _ _ _ _ hig]
    exact ih _ h
  | case8 base name _content rest hnig =>
    rw [gfs_file_nometa _ _ _ _ (by simpa using hnig)] at h
    exact absurd h (by simp)
  | case9 base name _content rest hnig n e herr ih =>
    rw [gfs_file _ _ _ _ _ (by simpa using hnig), herr] at h
    exact absurd h (by simp)
  | case10 base name _content rest hnig n tail htail ih =>
    rw [gfs_file _ _ _ _ _ (by simpa using hnig), htail] at h
    injection h with h
    subst h
    rw [asf_file _ _ _ _ (by simpa using hnig)]
    simp

/-- The walk succeeds exactly when it reaches no filesystem failure:
building fails if and only if a non-ignored directory is unlistable or a
non-ignored file has unreadable metadata somewhere in the traversed part
of the tree. -/
theorem gfs_isOk_iff (nodes : List FsNode) (base : String) :
    (get_file_structure nodes base).isOk = !hasReachableFsError nodes := by
  induction nodes, base using get_file_structure.induct with
  | case1 base =>
    rw [gfs_nil, hre_nil]
    rfl
  | case2 base name listable children rest hig ih =>
    rw [gfs_dir_ignored _ _ _ _ _ hig, hre_dir_ignored _ _ _ _ hig]
    exact ih
  | case3 base name children rest hnig e herr ihc =>
    rw [gfs_dir _ _ _ _ hnig, herr, hre_dir _ _ _ _ hnig]
    rw [herr] at ihc
    have : hasReachableFsError children = true := by
      cases hx : hasReachableFsError children
      · rw [hx] at ihc
        exact absurd ihc (by simp [Except.isOk, Except.toBool])
      · rfl
    simp [this, Except.isOk, Except.toBool]
  | case4 base name children rest hnig cs hcs e herr ihc ihr =>
    rw [gfs_dir _ _ _ _ hnig, hcs, herr, hre_dir _ _ _ _ hnig]
    rw [herr] at ihr
    have : hasReachableFsError rest = true := by
      cases hx : hasReachableFsError rest
      · rw [hx] at ihr
        exact absurd ihr (by simp [Except.isOk, Except.toBool])
      · rfl
    simp [this, Except.isOk, Except.toBool]
  | case5 base name children rest hnig cs hcs tail htail ihc ihr =>
    rw [gfs_dir _ _ _ _ hnig, hcs, htail, hre_dir _ _ _ _ hnig]
    rw [hcs] at ihc
    rw [htail] at ihr
    have h1 : hasReachableFsError children = false := by
      cases hx : hasReachableFsError children
      · rfl
      · rw [hx] at ihc
        exact absurd ihc (by simp [Except.isOk, Except.toBool])
    have h2 : hasReachableFsError rest = false := by
      cases hx : hasReachableFsError rest
      · rfl
      · rw [hx] at ihr
        exact absurd ihr (by simp [Except.isOk, Except.toBool])
    simp [h1, h2, Except.isOk, Except.toBool]
  | case6 base name listable children rest hnig hnl =>
    have hl : listable = false := by
      cases listable
      · rfl
      · exact absurd rfl hnl
    subst hl
    rw [gfs_dir_unlistable _ _ _ _ hnig, hre_dir _ _ _ _ hnig]
    simp [Except.isOk, Except.toBool]
  | case7 base name size _content rest hig ih =>
    rw [gfs_file_ignored _ _ _ _ _ hig, hre_file_ignored _ _ _ _ hig]
    exact ih
  | case8 base name _content rest hnig =>
    rw [gfs_file_nometa _ _ _ _ (by simpa using hnig),
      hre_file _ _ _ _ (by simpa using hnig)]
    simp [Except.isOk, Except.toBool]
  | case9 base name _content rest hnig n e herr ih =>
    rw [gfs_file _ _ _ _ _ (by simpa using hnig), herr,
      hre_file _ _ _ _ (by simpa using hnig)]
    rw [herr] at ih
    have : hasReachableFsError rest = true := by
      cases hx : hasReachableFsError rest
      · rw [hx] at ih
        exact absurd ih (by simp [Except.isOk, Except.toBool])
      · rfl
    simp [this, Except.isOk, Except.toBool]
  | case10 base name _content rest hnig n tail htail ih =>
    rw [gfs_file _ _ _ _ _ (by simpa using hnig), htail,
      hre_file _ _ _ _ (by simpa using hnig)]
    rw [htail] at ih
    have : hasReachableFsError rest = false := by
      cases hx : hasReachableFsError rest
      · rfl
      · rw [hx] at ih
        exact absurd ih (by simp [Except.isOk, Except.toBool])
    simp [this, Except.isOk, Except.toBool]

/-- Consing any entry onto a list extends its depth-first file list only on
the left. -/
theorem filesOf_cons (a : FileEntry) (rest : List FileEntry) :
    ∃ pre, filesOf (a :: rest) = pre ++ filesOf rest := by
  cases a with
  | mk t n p sz ch =>
    by_cases ht : t = "directory"
    · subst ht
      cases ch with
      | some cs =>
        exact ⟨filesOf cs, by rw [filesOf, if_pos rfl]⟩
      | none =>
        exact ⟨[], by rw [filesOf, if_pos rfl]⟩
    · exact ⟨[.mk t n p sz ch], by rw [filesOf_file t n p sz ch rest ht, List.singleton_append]⟩

/-- A non-directory entry of a list occurs in its depth-first file list. -/
theorem mem_filesOf_of_mem (s : List FileEntry) (e : FileEntry) (he : e ∈ s)
    (ht : ¬e.entry_type = "directory") : e ∈ filesOf s := by
  induction s with
  | nil => simp at he
  | cons a rest ih =>
    rcases List.mem_cons.mp he with heq | hmem
    · subst heq
      cases e with
      | mk t n p sz ch =>
        rw [filesOf_file t n p sz ch rest (by simpa [FileEntry.entry_type] using ht)]
        exact List.mem_cons_self _ _
    · obtain ⟨pre, hpre⟩ := filesOf_cons a rest
      rw [hpre]
      exact List.mem_append_right _ (ih hmem)

/-- Every file in a successfully built structure survives the ignore
filter: ignored names never reach the output. -/
theorem gfs_files_not_ignored (nodes : List FsNode) (base : String) (s : List FileEntry)
    (h : get_file_structure nodes base = .ok s) :
    ∀ e ∈ filesOf s, should_ignore_file e.name = false := by
  induction nodes, base using get_file_structure.induct generalizing s with
  | case1 base =>
    rw [gfs_nil] at h
    injection h with h
    subst h
    intro e he
    simp [filesOf] at he
  | case2 base name listable children rest hig ih =>
    rw [gfs_dir_ignored _ _ _ _ _ hig] at h
    exact ih _ h
  | case3 base name children rest hnig e herr ihc =>
    rw [gfs_dir _ _ _ _ hnig, herr] at h
    exact absurd h (by simp)
  | case4 base name children rest hnig cs hcs e herr ihc ihr =>
    rw [gfs_dir _ _ _ _ hnig, hcs, herr] at h
    exact absurd h (by simp)
  | case5 base name children rest hnig cs hcs tail htail ihc ihr =>
    rw [gfs_dir _ _ _ _ hnig, hcs, htail] at h
    injection h with h
    subst h
    intro e he
    cases hce : cs.isEmpty with
    | true =>
      rw [if_pos hce] at he
      exact ihr _ htail e he
    | false =>
      rw [if_neg (by simp [hce])] at he
      rw [filesOf, if_pos rfl] at he
      rcases List.mem_append.mp he with h1 | h2
      · exact ihc _ hcs e h1
      · exact ihr _ htail e h2
  | case6 base name listable children rest hnig hnl =>
    have hl : listable = false := by
      cases listable
      · rfl
      · exact absurd rfl hnl
    subst hl
    rw [gfs_dir_unlistable _ _ _ _ hnig] at h
    exact absurd h (by simp)
  | case7 base name size _content rest hig ih =>
    rw [gfs_file_ignored _ _ _ _ _ hig] at h
    exact ih _ h
  | case8 base name _content rest hnig =>
    rw [gfs_file_nometa _ _ _ _ (by simpa using hnig)] at h
    exact absurd h (by simp)
  | case9 base name _content rest hnig n e herr ih =>
    rw [gfs_file _ _ _ _ _ (by simpa using hnig), herr] at h
    exact absurd h (by simp)
  | case10 base name _content rest hnig n tail htail ih =>
    rw [gfs_file _ _ _ _ _ (by simpa using hnig), htail] at h
    injection h with h
    subst h
    intro e he
    rw [filesOf_file _ _ _ _ _ _ (by simp)] at he
    rcases List.mem_cons.mp he with heq | hmem
    · subst heq
      simpa [FileEntry.name] using hnig
    · exact ih _ htail e hmem

/-- A non-ignored file with readable metadata that occurs in the walked
listing yields its entry in the resulting structure. -/
theorem gfs_mem_file (nodes : List FsNode) (base : String) (s : List FileEntry)
    (h : get_file_structure nodes base = .ok s) (name : String) (sz : Nat)
    (c : Option String) (hmem : FsNode.file name (some sz) c ∈ nodes)
    (hnig : should_ignore_file name = false) :
    FileEntry.mk "file" name (joinPath base name) (some sz) none ∈ s := by
  induction nodes, base using get_file_structure.induct generalizing s with
  | case1 base => simp at hmem
  | case2 base name0 listable children rest hig ih =>
    rw [gfs_dir_ignored _ _ _ _ _ hig] at h
    rcases List.mem_cons.mp hmem with heq | hmem2
    · exact absurd heq (by simp)
    · exact ih _ h hmem2
  | case3 base name0 children rest hnig0 e herr ihc =>
    rw [gfs_dir _ _ _ _ hnig0, herr] at h
    exact absurd h (by simp)
  | case4 base name0 children rest hnig0 cs hcs e herr ihc ihr =>
    rw [gfs_dir _ _ _ _ hnig0, hcs, herr] at h
    exact absurd h (by simp)
  | case5 base name0 children rest hnig0 cs hcs tail htail ihc ihr =>
    rw [gfs_dir _ _ _ _ hnig0, hcs, htail] at h
    injection h with h
    subst h
    rcases List.mem_cons.mp hmem with heq | hmem2
    · exact absurd heq (by simp)
    · have htl := ihr _ htail hmem2
      cases hce : cs.isEmpty with
      | true => simpa using htl
      | false =>
        have hm := List.mem_cons_of_mem
          (FileEntry.mk "directory" name0 (joinPath base name0) none (some cs)) htl
        simpa using hm
  | case6 base name0 listable children rest hnig0 hnl =>
    have hl : listable = false := by
      cases listable
      · rfl
      · exact absurd rfl hnl
    subst hl
    rw [gfs_dir_unlistable _ _ _ _ hnig0] at h
    exact absurd h (by simp)
  | case7 base name0 size _content rest hig ih =>
    rw [gfs_file_ignored _ _ _ _ _ hig] at h
    rcases List.mem_cons.mp hmem with heq | hmem2
    · injection heq with h1 h2 h3
      subst h1
      rw [hig] at hnig
      exact absurd hnig (by simp)
    · exact ih _ h hmem2
  | case8 base name0 _content rest hnig0 =>
    rw [gfs_file_nometa _ _ _ _ (by simpa using hnig0)] at h
    exact absurd h (by simp)
  | case9 base name0 _content rest hnig0 n e herr ih =>
    rw [gfs_file _ _ _ _ _ (by simpa using hnig0), herr] at h
    exact absurd h (by simp)
  | case10 base name0 _content rest hnig0 n tail htail ih =>
    rw [gfs_file _ _ _ _ _ (by simpa using hnig0), htail] at h
    injection h with h
    subst h
    rcases List.mem_cons.mp hmem with heq | hmem2
    · injection heq with h1 h2 h3
      subst h1
      injection h2 with h2
      subst h2
      exact List.mem_cons_self _ _
    · exact List.mem_cons_of_mem _ (ih _ htail hmem2)

/-- Every entry of the depth-first file list of a successfully built
structure is tagged "file". -/
theorem gfs_filesOf_type (nodes : List FsNode) (base : String) (s : List FileEntry)
    (h : get_file_structure nodes base = .ok s) :
    ∀ e ∈ filesOf s, e.entry_type = "file" := by
  induction nodes, base using get_file_structure.induct generalizing s with
  | case1 base =>
    rw [gfs_nil] at h
    injection h with h
    subst h
    intro e he
    simp [filesOf] at he
  | case2 base name listable children rest hig ih =>
    rw [gfs_dir_ignored _ _ _ _ _ hig] at h
    exact ih _ h
  | case3 base name children rest hnig e herr ihc =>
    rw [gfs_dir _ _ _ _ hnig, herr] at h
    exact absurd h (by simp)
  | case4 base name children rest hnig cs hcs e herr ihc ihr =>
    rw [gfs_dir _ _ _ _ hnig, hcs, herr] at h
    exact absurd h (by simp)
  | case5 base name children rest hnig cs hcs tail htail ihc ihr =>
    rw [gfs_dir _ _ _ _ hnig, hcs, htail] at h
    injection h with h
    subst h
    intro e he
    cases hce : cs.isEmpty with
    | true =>
      rw [if_pos hce] at he
      exact ihr _ htail e he
    | false =>
      rw [if_neg (by simp [hce])] at he
      rw [filesOf, if_pos rfl] at he
      rcases List.mem_append.mp he with h1 | h2
      · exact ihc _ hcs e h1
      · exact ihr _ htail e h2
  | case6 base name listable children rest hnig hnl =>
    have hl : listable = false := by
      cases listable
      · rfl
      · exact absurd rfl hnl
    subst hl
    rw [gfs_dir_unlistable _ _ _ _ hnig] at h
    exact absurd h (by simp)
  | case7 base name size _content rest hig ih =>
    rw [gfs_file_ignored _ _ _ _ _ hig] at h
    exact ih _ h
  | case8 base name _content rest hnig =>
    rw [gfs_file_nometa _ _ _ _ (by simpa using hnig)] at h
    exact absurd h (by simp)
  | case9 base name _content rest hnig n e herr ih =>
    rw [gfs_file _ _ _ _ _ (by simpa using hnig), herr] at h
    exact absurd h (by simp)
  | case10 base name _content rest hnig n tail htail ih =>
    rw [gfs_file _ _ _ _ _ (by simpa using hnig), htail] at h
    injection h with h
    subst h
    intro e he
    rw [filesOf_file _ _ _ _ _ _ (by simp)] at he
    rcases List.mem_cons.mp he with heq | hmem
    · subst heq
      rfl
    · exact ih _ htail e hmem

/-- The rendered body splits around the section of any member of the
rendered file list. -/
theorem renderAll_mem_split (read : String → Option String) (fs : List FileEntry)
    (e : FileEntry) (he : e ∈ fs) :
    ∃ pre post, renderAll read fs = pre ++ (renderSection read e ++ post) := by
  induction fs with
  | nil => simp at he
  | cons a rest ih =>
    rcases List.mem_cons.mp he with heq | hmem
    · subst heq
      exact ⟨"", renderAll read rest, by rw [renderAll]; simp⟩
    · obtain ⟨pre, post, hp⟩ := ih hmem
      exact ⟨renderSection read a ++ pre, post, by rw [renderAll, hp, String.append_assoc]⟩

/-- Characterization of a successful `buildAndRender` run: the root was
listable, the walk succeeded, and the document is the structure header,
the serialized tree, the contents header, and one rendered section per
file of the tree in depth-first order. -/
theorem buildAndRender_ok (root : Option (List FsNode)) (diag : List String)
    (doc : String) (dg : List String) (h : buildAndRender root diag = .ok (doc, dg)) :
    ∃ l tree, root = some l ∧ get_file_structure l "" = .ok tree ∧
      doc = "# Repository Structure\n\n```json\n[" ++ serializeEntries tree ++
        "]\n```\n\n# File Contents\n\n" ++
        renderAll (fun p => readFrom l (splitChar '/' p)) (filesOf tree) ∧
      dg = diag ++
        (filesOf tree).filterMap (warnFor (fun p => readFrom l (splitChar '/' p))) := by
  cases root with
  | none => simp [buildAndRender] at h
  | some l =>
    rw [buildAndRender] at h
    cases hgfs : get_file_structure l "" with
    | error e =>
      rw [hgfs] at h
      simp at h
    | ok tree =>
      rw [hgfs] at h
      simp only [process_files_eq, Except.ok.injEq, Prod.mk.injEq] at h
      obtain ⟨h1, h2⟩ := h
      exact ⟨l, tree, rfl, hgfs, h1.symm, h2.symm⟩

/-- C1 counterexample: a remote https source whose clone command runs but
exits non-zero (here 128) with an empty temporary directory does NOT abort
the run — `runMain` succeeds and an output file is produced, refuting the
claim that a non-zero clone exit propagates a `SourceUnavailable` error
with no output file. -/
theorem c1_counterexample :
    failedClone.exitCode = 128 ∧ failedClone.resultFs = [] ∧
    isRemote "https://example.com/org/repo.git" = true ∧
    (runMain "https://example.com/org/repo.git" failedClone none).isOk = true := by
  refine ⟨rfl, rfl, by decide, ?_⟩
  simp +decide [runMain, generate_markdown, remoteRun, failedClone, buildAndRender,
    get_file_structure, process_files, gitDiag]

/-- C1 (amended): for every remote source string, the run aborts only when
the clone subprocess cannot be spawned at all; the source is never
treated as a local path (the result is independent of the local
filesystem); the exit status of the clone command is never examined, and
whenever the subprocess ran the pipeline continues on the temporary
directory after echoing git's stderr. -/
theorem c1_amended :
    (∀ (s : String) (clone : CloneOutcome) (lf : Option (List FsNode)),
      isRemote s = true → clone.spawned = false →
      generate_markdown s clone lf = .error GmErr.cloneSpawn) ∧
    (∀ (s : String) (clone : CloneOutcome) (lf lf2 : Option (List FsNode)),
      isRemote s = true →
      generate_markdown s clone lf = generate_markdown s clone lf2) ∧
    (∀ (s : String) (sp : Bool) (code code2 : Nat) (st : String) (fs : List FsNode)
      (lf : Option (List FsNode)), isRemote s = true →
      generate_markdown s ⟨sp, code, st, fs⟩ lf = generate_markdown s ⟨sp, code2, st, fs⟩ lf) ∧
    (∀ (s : String) (clone : CloneOutcome) (lf : Option (List FsNode)),
      isRemote s = true → clone.spawned = true →
      generate_markdown s clone lf = buildAndRender (some clone.resultFs) (gitDiag clone)) := by
  refine ⟨?_, ?_, ?_, ?_⟩
  · intro s clone lf hr hsp
    simp [generate_markdown, hr, remoteRun, hsp]
  · intro s clone lf lf2 hr
    simp [generate_markdown, hr]
  · intro s sp code code2 st fs lf hr
    simp [generate_markdown, hr, remoteRun, gitDiag]
  · intro s clone lf hr hsp
    simp [generate_markdown, hr, remoteRun, hsp]

theorem c1_amended_witness :
    generate_markdown "ssh://host/repo.git" ⟨false, 0, "", []⟩ none =
      .error GmErr.cloneSpawn ∧
    generate_markdown "https://example.com/repo.git" failedClone (some sampleFs) =
      buildAndRender (some failedClone.resultFs) (gitDiag failedClone) := by
  exact ⟨c1_amended.1 "ssh://host/repo.git" ⟨false, 0, "", []⟩ none (by decide) rfl,
    c1_amended.2.2.2 "https://example.com/repo.git" failedClone (some sampleFs)
      (by decide) rfl⟩

/-- C2 counterexample: the source string `git@github.com:user/repo.git`
derives the repository name `user-repo`, not `repo` — the code splits an
SSH-shorthand source on `:` only, keeps the whole `user/repo` segment,
and the `/` is then replaced by `-`. -/
theorem c2_counterexample :
    repo_name "git@github.com:user/repo.git" = "user-repo" ∧
    ¬repo_name "git@github.com:user/repo.git" = "repo" := by
  exact ⟨by decide, by decide⟩

/-- C2 (amended): the derived output name takes the trailing segment
(splitting on `:` for the `git@` SSH-shorthand form — keeping any `/`
inside that segment — and on `/` otherwise), strips one trailing `.git`,
and replaces every character that is not an ASCII letter, digit, `-` or
`_` with `-`; so `git@github.com:user/repo.git` derives `user-repo.md`
and `https://example.com/org/my-repo/` derives `my-repo.md`. -/
theorem c2_amended :
    repo_name "git@github.com:user/repo.git" = "user-repo" ∧
    repo_name "https://example.com/org/my-repo/" = "my-repo" ∧
    runMain "https://example.com/org/my-repo/" failedClone none =
      .ok ("./output/my-repo.md",
        "# Repository Structure\n\n```json\n[]\n```\n\n# File Contents\n\n",
        ["Git output: fatal: repository not found"]) := by
  refine ⟨by decide, by decide, ?_⟩
  simp +decide [runMain, generate_markdown, remoteRun, failedClone, buildAndRender,
    get_file_structure, process_files, gitDiag, serializeEntries, renderAll,
    repo_name, strEndsWith, strStartsWith, splitChar, splitCharList]

/-- C4 (code bug): for a source string deriving an empty name (here `/`),
the output is written to `./output/.md`, not `./output/repository.md` —
the Rust code computes the `"repository"` fallback (main.rs lines
293-297) but never binds the result (as written the statement is a
non-unit `if` expression in statement position, which does not even
compile), so the fallback never reaches the output path of line 304. -/
theorem c4_fallback_discarded :
    repo_name "/" = "" ∧
    runMain "/" okClone (some []) =
      .ok ("./output/.md",
        "# Repository Structure\n\n```json\n[]\n```\n\n# File Contents\n\n", []) ∧
    ¬("./output/.md" = "./output/repository.md") := by
  refine ⟨by decide, ?_, by decide⟩
  simp +decide [runMain, generate_markdown, buildAndRender, get_file_structure,
    process_files, serializeEntries, renderAll, repo_name, strEndsWith,
    strStartsWith, splitChar, splitCharList]

/-- C9: remote-versus-local classification is a pure string-prefix test:
every source string starting with `http` (such as the local-looking
directory name `httpdocs`) is classified remote, and for every
remote-classified source the pipeline runs `remoteRun` (which clones the
source and walks the temporary directory, taking no local listing at
all) — the local path branch is never taken. -/
theorem c9_http_prefix_remote :
    (∀ s : String, strStartsWith s "http" = true → isRemote s = true) ∧
    isRemote "httpdocs" = true ∧
    (∀ (s : String) (clone : CloneOutcome) (lf lf2 : Option (List FsNode)),
      isRemote s = true →
      generate_markdown s clone lf = remoteRun s clone ∧
      generate_markdown s clone lf = generate_markdown s clone lf2) := by
  refine ⟨?_, by decide, ?_⟩
  · intro s h
    simp [isRemote, h]
  · intro s clone lf lf2 hr
    constructor
    · simp [generate_markdown, hr]
    · simp [generate_markdown, hr]

theorem c9_witness :
    isRemote "httpdocs" = true ∧
    generate_markdown "httpdocs" okClone (some sampleFs) = remoteRun "httpdocs" okClone ∧
    generate_markdown "httpdocs" okClone (some sampleFs) =
      generate_markdown "httpdocs" okClone none := by
  refine ⟨c9_http_prefix_remote.2.1, ?_, ?_⟩
  · exact (c9_http_prefix_remote.2.2 "httpdocs" okClone (some sampleFs) none
      (by decide)).1
  · exact (c9_http_prefix_remote.2.2 "httpdocs" okClone (some sampleFs) none
      (by decide)).2

/-- C3: for every run that produces an output document, the document is the
structure header, the serialized tree, the contents header, and then the
concatenation of exactly one `##`-headed section per File node of the
structure (the body is `renderAll` over `filesOf tree`, whose entries are
exactly the tree's File nodes, rendered in depth-first order). -/
theorem c3_structure_body_correspondence (source : String) (clone : CloneOutcome)
    (lf : Option (List FsNode)) (doc : String) (diag : List String)
    (h : generate_markdown source clone lf = .ok (doc, diag)) :
    ∃ l tree, get_file_structure l "" = .ok tree ∧
      doc = "# Repository Structure\n\n```json\n[" ++ serializeEntries tree ++
        "]\n```\n\n# File Contents\n\n" ++
        renderAll (fun p => readFrom l (splitChar '/' p)) (filesOf tree) ∧
      (∀ e ∈ filesOf tree, e.entry_type = "file") := by
  cases hr : isRemote source with
  | false =>
    rw [generate_markdown, hr] at h
    simp only [Bool.false_eq_true, if_false] at h
    obtain ⟨l, tree, hroot, hgfs, hdoc, hdg⟩ := buildAndRender_ok _ _ _ _ h
    exact ⟨l, tree, hgfs, hdoc, gfs_filesOf_type _ _ _ hgfs⟩
  | true =>
    rw [generate_markdown, hr] at h
    simp only [if_true] at h
    rw [remoteRun] at h
    cases hsp : clone.spawned with
    | false =>
      rw [hsp] at h
      simp at h
    | true =>
      rw [hsp] at h
      simp only [if_true] at h
      obtain ⟨l, tree, hroot, hgfs, hdoc, hdg⟩ := buildAndRender_ok _ _ _ _ h
      exact ⟨l, tree, hgfs, hdoc, gfs_filesOf_type _ _ _ hgfs⟩

theorem c3_witness :
    ∃ l tree, get_file_structure l "" = .ok tree ∧
      ("# Repository Structure\n\n```json\n[\x7b\"type\":\"file\",\"name\":\"a.txt\",\"path\":\"a.txt\",\"size\":4\x7d]\n```\n\n# File Contents\n\n## a.txt\n\n```\ntext\n```\n\n"
        : String) =
        "# Repository Structure\n\n```json\n[" ++ serializeEntries tree ++
          "]\n```\n\n# File Contents\n\n" ++
          renderAll (fun p => readFrom l (splitChar '/' p)) (filesOf tree) ∧
      (∀ e ∈ filesOf tree, e.entry_type = "file") := by
  refine c3_structure_body_correspondence "proj0" okClone
    (some [.file "a.txt" (some 4) (some "text")]) _ [] ?_
  simp +decide [generate_markdown, buildAndRender, get_file_structure, process_files,
    serializeEntries, renderAll, renderSection, warnFor, filesOf, readFrom, splitChar,
    splitCharList]

/-- C5: an ignored directory entry is skipped entirely — the walk drops it
without recursing, so even an unlistable subtree beneath it causes no
error and no node — and, on a successful walk, a non-ignored directory
entry yields a Directory node exactly when its recursively filtered
child list is non-empty, which happens exactly when some descendant file
survives ignore-filtering (empty or fully-ignored subtrees yield no
node). -/
theorem c5_directory_nodes :
    (∀ (name : String) (lb : Bool) (ch rest : List FsNode) (base : String),
      name ∈ ignore_dirs →
      get_file_structure (.dir name lb ch :: rest) base = get_file_structure rest base) ∧
    (∀ (name : String) (lb : Bool) (ch rest : List FsNode) (base : String)
      (s : List FileEntry),
      get_file_structure (.dir name lb ch :: rest) base = .ok s →
      name ∉ ignore_dirs →
      ∃ cs tail, get_file_structure ch (joinPath base name) = .ok cs ∧
        get_file_structure rest base = .ok tail ∧
        s = (if cs.isEmpty then tail
             else .mk "directory" name (joinPath base name) none (some cs) :: tail) ∧
        cs.isEmpty = !anySurvivingFile ch) := by
  constructor
  · exact fun name lb ch rest base hig => gfs_dir_ignored name lb ch rest base hig
  · intro name lb ch rest base s h hnig
    cases lb with
    | false =>
      rw [gfs_dir_unlistable _ _ _ _ hnig] at h
      exact absurd h (by simp)
    | true =>
      rw [gfs_dir _ _ _ _ hnig] at h
      cases hcs : get_file_structure ch (joinPath base name) with
      | error e =>
        rw [hcs] at h
        simp at h
      | ok cs =>
        rw [hcs] at h
        cases htail : get_file_structure rest base with
        | error e =>
          rw [htail] at h
          simp at h
        | ok tail =>
          rw [htail] at h
          simp only [Except.ok.injEq] at h
          exact ⟨cs, tail, rfl, rfl, h.symm, gfs_ok_empty_iff ch _ cs hcs⟩

theorem c5_witness :
    get_file_structure
        [.dir ".git" false [.file "x" none none], .file "app.py" (some 2) (some "hi")] "" =
      get_file_structure [.file "app.py" (some 2) (some "hi")] "" ∧
    (∃ cs tail,
      get_file_structure [FsNode.file "app.py" (some 2) (some "hi")] (joinPath "" "src") =
        .ok cs ∧
      get_file_structure [] "" = .ok tail ∧
      [FileEntry.mk "directory" "src" (joinPath "" "src") none
          (some [FileEntry.mk "file" "app.py" "src/app.py" (some 2) none])] =
        (if cs.isEmpty then tail
         else .mk "directory" "src" (joinPath "" "src") none (some cs) :: tail) ∧
      cs.isEmpty = !anySurvivingFile [FsNode.file "app.py" (some 2) (some "hi")]) := by
  constructor
  · exact c5_directory_nodes.1 ".git" false [.file "x" none none]
      [.file "app.py" (some 2) (some "hi")] "" (by decide)
  · refine c5_directory_nodes.2 "src" true [.file "app.py" (some 2) (some "hi")] [] "" _
      ?_ (by decide)
    simp +decide [get_file_structure, joinPath]

/-- C6: the content-rendering pass never fails — `process_files` always
returns `.ok`, emitting exactly one section per File node in depth-first
order — and for a file whose read fails the section is still emitted,
with body exactly the literal placeholder, together with a warning on
the diagnostic stream. -/
theorem c6_render_never_fails :
    (∀ (read : String → Option String) (entries : List FileEntry) (md : String)
      (dg : List String), (process_files read entries md dg).isOk = true) ∧
    (∀ (read : String → Option String) (entries : List FileEntry) (md : String)
      (dg : List String),
      process_files read entries md dg =
        .ok (md ++ renderAll read (filesOf entries),
             dg ++ (filesOf entries).filterMap (warnFor read))) ∧
    (∀ (read : String → Option String) (e : FileEntry), read e.path = none →
      renderSection read e = "## " ++ e.path ++ "\n\n```" ++
        get_language_from_ext e.path ++ "\n" ++
        "[Binary or non-UTF8 file content skipped]" ++ "\n```\n\n" ∧
      warnFor read e = some ("Warning: Unable to read " ++ e.path ++ " as UTF-8 text")) := by
  refine ⟨?_, process_files_eq, ?_⟩
  · intro read entries md dg
    rw [process_files_eq]
    rfl
  · intro read e h
    constructor
    · rw [renderSection, h]
      rfl
    · rw [warnFor, h]

theorem c6_witness :
    (process_files (fun _ => none) [FileEntry.mk "file" "data.bin" "data.bin" (some 1) none]
      "" []).isOk = true ∧
    renderSection (fun _ => none) (FileEntry.mk "file" "data.bin" "data.bin" (some 1) none) =
      "## " ++ (FileEntry.mk "file" "data.bin" "data.bin" (some 1) none).path ++
        "\n\n```" ++
        get_language_from_ext (FileEntry.mk "file" "data.bin" "data.bin" (some 1) none).path ++
        "\n" ++ "[Binary or non-UTF8 file content skipped]" ++ "\n```\n\n" ∧
    warnFor (fun _ => none) (FileEntry.mk "file" "data.bin" "data.bin" (some 1) none) =
      some ("Warning: Unable to read " ++
        (FileEntry.mk "file" "data.bin" "data.bin" (some 1) none).path ++ " as UTF-8 text") := by
  refine ⟨c6_render_never_fails.1 (fun _ => none) _ "" [], ?_, ?_⟩
  · exact (c6_render_never_fails.2.2 (fun _ => none)
      (FileEntry.mk "file" "data.bin" "data.bin" (some 1) none) rfl).1
  · exact (c6_render_never_fails.2.2 (fun _ => none)
      (FileEntry.mk "file" "data.bin" "data.bin" (some 1) none) rfl).2

/-- C7: tree building fails exactly when the traversal reaches a directory
that cannot be listed or a non-ignored file whose metadata cannot be
read (including an unreadable traversal root), and any error of the
pipeline is fatal: `runMain` propagates it, exits with the error and
writes nothing. -/
theorem c7_fs_errors_fatal :
    (∀ (nodes : List FsNode) (base : String),
      (get_file_structure nodes base).isOk = !hasReachableFsError nodes) ∧
    (∀ diag : List String, buildAndRender none diag = .error GmErr.fs) ∧
    (∀ (arg : String) (clone : CloneOutcome) (lf : Option (List FsNode)) (e : GmErr),
      generate_markdown arg clone lf = .error e → runMain arg clone lf = .error e) := by
  refine ⟨gfs_isOk_iff, fun diag => rfl, ?_⟩
  intro arg clone lf e h
  rw [runMain, h]

theorem c7_witness :
    runMain "proj" okClone none = .error GmErr.fs := by
  exact c7_fs_errors_fatal.2.2 "proj" okClone none GmErr.fs rfl

/-- C8: the file names `photo.png` (by its `png` extension), `.DS_Store`
and `yarn.lock` (by name) are ignored; no ignored name ever appears as a
File node of a built structure (hence in its rendered body, which is the
concatenation of the sections of exactly those File nodes); and any
non-ignored sibling file with readable metadata appears in the
structure, in its depth-first file list, and as a section of the
rendered body. -/
theorem c8_ignored_files_absent :
    (should_ignore_file "photo.png" = true ∧ should_ignore_file ".DS_Store" = true ∧
      should_ignore_file "yarn.lock" = true) ∧
    (∀ (nodes : List FsNode) (base : String) (s : List FileEntry),
      get_file_structure nodes base = .ok s →
      ∀ e ∈ filesOf s, should_ignore_file e.name = false) ∧
    (∀ (nodes : List FsNode) (base : String) (s : List FileEntry) (name : String)
      (sz : Nat) (c : Option String),
      get_file_structure nodes base = .ok s →
      FsNode.file name (some sz) c ∈ nodes → should_ignore_file name = false →
      FileEntry.mk "file" name (joinPath base name) (some sz) none ∈ s ∧
      FileEntry.mk "file" name (joinPath base name) (some sz) none ∈ filesOf s ∧
      (∀ read : String → Option String, ∃ pre post,
        renderAll read (filesOf s) =
          pre ++ (renderSection read
            (FileEntry.mk "file" name (joinPath base name) (some sz) none) ++ post))) := by
  refine ⟨⟨by decide, by decide, by decide⟩, gfs_files_not_ignored, ?_⟩
  intro nodes base s name sz c h hmem hnig
  have h1 := gfs_mem_file nodes base s h name sz c hmem hnig
  have h2 := mem_filesOf_of_mem s _ h1 (by simp [FileEntry.entry_type])
  exact ⟨h1, h2, fun read => renderAll_mem_split read _ _ h2⟩

theorem c8_witness :
    should_ignore_file "photo.png" = true ∧
    (∀ e ∈ filesOf [FileEntry.mk "file" "main.rs" "main.rs" (some 10) none],
      should_ignore_file e.name = false) ∧
    FileEntry.mk "file" "main.rs" (joinPath "" "main.rs") (some 10) none ∈
      [FileEntry.mk "file" "main.rs" "main.rs" (some 10) none] := by
  have hgfs : get_file_structure sampleFs "" =
      .ok [FileEntry.mk "file" "main.rs" "main.rs" (some 10) none] := by
    simp +decide [get_file_structure, sampleFs]
  refine ⟨c8_ignored_files_absent.1.1, c8_ignored_files_absent.2.1 sampleFs "" _ hgfs, ?_⟩
  exact (c8_ignored_files_absent.2.2 sampleFs "" _ "main.rs" 10 (some "fn main()") hgfs
    (by simp +decide [sampleFs]) (by decide)).1

/-- C10: a file name with no extension under the path-extension rule (no
dot, or only a leading dot as in `.gitignore`) is never excluded by the
extension denylist — `should_ignore_file` then reduces to membership of
the full name in the ignored-file set — and such a file, when not in the
ignored-file set, appears in the built structure and in its depth-first
file list (hence in both outputs). -/
theorem c10_extensionless_never_denied :
    (∀ f : String, rustExtension f = none →
      should_ignore_file f = decide (f ∈ ignore_files)) ∧
    rustExtension ".gitignore" = none ∧
    (∀ (nodes : List FsNode) (base : String) (s : List FileEntry) (name : String)
      (sz : Nat) (c : Option String),
      get_file_structure nodes base = .ok s →
      FsNode.file name (some sz) c ∈ nodes →
      rustExtension name = none → name ∉ ignore_files →
      FileEntry.mk "file" name (joinPath base name) (some sz) none ∈ s ∧
      FileEntry.mk "file" name (joinPath base name) (some sz) none ∈ filesOf s) := by
  have hsif : ∀ f : String, rustExtension f = none →
      should_ignore_file f = decide (f ∈ ignore_files) := by
    intro f h
    by_cases hf : f ∈ ignore_files
    · simp [should_ignore_file, hf]
    · simp [should_ignore_file, hf, h]
  refine ⟨hsif, by decide, ?_⟩
  intro nodes base s name sz c h hmem hext hnf
  have hnig : should_ignore_file name = false := by
    rw [hsif name hext]
    simpa using hnf
  have h1 := gfs_mem_file nodes base s h name sz c hmem hnig
  exact ⟨h1, mem_filesOf_of_mem s _ h1 (by simp [FileEntry.entry_type])⟩

theorem c10_witness :
    rustExtension ".gitignore" = none ∧
    FileEntry.mk "file" "Makefile" (joinPath "" "Makefile") (some 7) none ∈
      [FileEntry.mk "file" "Makefile" "Makefile" (some 7) none] ∧
    FileEntry.mk "file" "Makefile" (joinPath "" "Makefile") (some 7) none ∈
      filesOf [FileEntry.mk "file" "Makefile" "Makefile" (some 7) none] := by
  have hgfs : get_file_structure [FsNode.file "Makefile" (some 7) (some "all:")] "" =
      .ok [FileEntry.mk "file" "Makefile" "Makefile" (some 7) none] := by
    simp +decide [get_file_structure]
  have h := c10_extensionless_never_denied.2.2
    [FsNode.file "Makefile" (some 7) (some "all:")] "" _ "Makefile" 7 (some "all:")
    hgfs (by simp) (by decide) (by decide)
  exact ⟨c10_extensionless_never_denied.2.1, h.1, h.2⟩

end GitConcat
